import Mathlib

set_option maxRecDepth 8000

/-!
Verification development for the CVEX CLI trading tool.

The definitions below are a shallow embedding of the JavaScript sources:

* `src/actions/utils.js` — identity derivation (`getApiKey`), canonical-message
  construction (`getMessageForSigning`), request signing (`signMessage`) and the
  outbound request builder (`apiRequest`);
* `src/actions/trading.js` — the interactive estimation form (`estimateOrder`)
  and the confirmation/submission step (`placeOrder`);
* `src/actions/ai.js` — contract resolution for natural-language orders and the
  narrative "Opportunity" extractor (`parseOpportunitiesFromAIResponse`).

Node's `crypto` primitives (SHA-256, the raw signature scheme, DER export of a
public key) are modelled as an abstract environment `CryptoEnv`: the theorems
that need collision-freeness of the hash or injectivity of the signing
primitive take those as explicit hypotheses.  Bytes are `Fin 256`; JavaScript
strings are Lean `String`s.
-/

namespace CvexCli

/-- JS `toLowerCase()` (ASCII range), defined over the character list so that
it reduces in the kernel (`String.toLower` uses well-founded recursion). -/
def toLowerStr (s : String) : String :=
  ⟨s.data.map Char.toLower⟩

/-- Lowercase hex digits, as produced by Node's `Buffer.toString('hex')`. -/
def hexDigitChar (n : Nat) : Char :=
  (String.toList "0123456789abcdef").getD n '0'

/-- One byte rendered as two hex characters (high nibble first). -/
def byteToHex (b : Fin 256) : List Char :=
  [hexDigitChar (b.val / 16), hexDigitChar (b.val % 16)]

/-- Model of `Buffer.toString('hex')`: each byte becomes two lowercase hex characters. -/
def hexEncode (bs : List (Fin 256)) : String :=
  ⟨bs.flatMap byteToHex⟩

/-- Abstract model of the Node `crypto` primitives used by `utils.js`.
`sha256` digests a (UTF-8) string, `sign` is `crypto.sign(null, hash, key)`,
and `derPublicKey` is the DER (spki) export of the key's public component. -/
structure CryptoEnv (Key : Type) where
  sha256 : String → List (Fin 256)
  sign : Key → List (Fin 256) → List (Fin 256)
  derPublicKey : Key → List (Fin 256)

/-- Model of `getMessageForSigning` from `utils.js`: `` `${method} ${url}\n${body}` ``. -/
def getMessageForSigning (method url body : String) : String :=
  method ++ " " ++ url ++ "\n" ++ body

/-- Model of `signMessage` from `utils.js`: SHA-256 of the canonical message, signed
directly with the private key, hex-encoded. -/
def signMessage {Key : Type} (env : CryptoEnv Key) (privateKey : Key)
    (method url body : String) : String :=
  hexEncode (env.sign privateKey (env.sha256 (getMessageForSigning method url body)))

/-- Model of `getApiKey` from `utils.js`: hex of the last 32 bytes of the DER-exported
public key (`derPublicKey.subarray(-32)`).  Nat subtraction truncates at zero
exactly like `subarray(-32)` does on short buffers. -/
def getApiKey {Key : Type} (env : CryptoEnv Key) (privateKey : Key) : String :=
  let der := env.derPublicKey privateKey
  hexEncode (der.drop (der.length - 32))


/-! ### Decimal rendering of numbers (JS number-to-string for naturals) -/

/-- Decimal digits of `n`, most significant first, by fuel recursion
(kernel-reducible, unlike well-founded recursion). -/
def natDecAux : Nat → Nat → List Char
  | 0, _ => []
  | fuel + 1, n =>
    if n < 10 then [hexDigitChar (n % 10)]
    else natDecAux fuel (n / 10) ++ [hexDigitChar (n % 10)]

/-- JS `String(n)` / `` `${n}` `` for a natural number. -/
def natDecimal (n : Nat) : String :=
  ⟨natDecAux (n + 1) n⟩

/-- Reading decimal digits back (left inverse of `natDecAux`). -/
def decToNat (cs : List Char) : Nat :=
  cs.foldl (fun acc c => acc * 10 + (c.toNat - 48)) 0

/-! ### JSON values and `JSON.stringify`

The order bodies built by `trading.js` contain only strings, booleans and
(natural) numbers; object keys are serialized in insertion order, exactly as
`JSON.stringify` does for object literals. -/

inductive Json where
  | str (s : String)
  | num (n : Nat)
  | bool (b : Bool)
  | obj (fields : List (String × Json))

/-- JSON string escaping for the characters that can occur in this program's
payloads (quote, backslash and the common control characters). -/
def jsonEscapeChar (c : Char) : List Char :=
  if c = '"' then ['\\', '"']
  else if c = '\\' then ['\\', '\\']
  else if c = '\n' then ['\\', 'n']
  else if c = '\t' then ['\\', 't']
  else if c = '\r' then ['\\', 'r']
  else [c]

def jsonEscape (s : String) : String :=
  ⟨s.data.flatMap jsonEscapeChar⟩

mutual

def jsonStringify : Json → String
  | .str s => "\"" ++ jsonEscape s ++ "\""
  | .num n => natDecimal n
  | .bool b => if b then "true" else "false"
  | .obj fields => "\x7b" ++ jsonFields fields ++ "\x7d"

def jsonFields : List (String × Json) → String
  | [] => ""
  | [(k, v)] => "\"" ++ jsonEscape k ++ "\":" ++ jsonStringify v
  | (k, v) :: rest => "\"" ++ jsonEscape k ++ "\":" ++ jsonStringify v ++ "," ++ jsonFields rest

end

/-- Model of `JSON.stringify(data)` where `data` may be `null`. -/
def jsonStringifyOpt : Option Json → String
  | none => "null"
  | some j => jsonStringify j

/-! ### `apiRequest` from `utils.js` -/

/-- The outbound HTTP request as handed to axios: method, full URL, headers in
insertion order, and the serialized body (absent when `data` is null, since
`data: data || undefined`). -/
structure HttpRequest where
  method : String
  url : String
  headers : List (String × String)
  body : Option String
deriving DecidableEq

/-- The loaded configuration: base URL, the static (read-only) API key, and the
private key when `privateKeyPath` points at a readable, parseable key. -/
structure Config (Key : Type) where
  apiUrl : String
  apiKey : String
  privateKey : Option Key

/-- Model of `apiRequest` from `utils.js`, modelled as the request it dispatches.
Signed requests derive the `X-API-KEY` header from the private key and attach
`X-Signature` over `JSON.stringify(data)`; unsigned requests carry the static
`config.apiKey` and no signature header. -/
def apiRequest {Key : Type} (env : CryptoEnv Key) (cfg : Config Key)
    (method endpoint : String) (data : Option Json) (needsSignature : Bool) :
    Except String HttpRequest :=
  let url := cfg.apiUrl ++ endpoint
  let baseHeaders := [("Content-Type", "application/json"), ("User-Agent", "CVEX-CLI/1.0")]
  if needsSignature then
    match cfg.privateKey with
    | none => .error "Private key not configured or file not found"
    | some key =>
      let apiKey := getApiKey env key
      let messageToSign := jsonStringifyOpt data
      let signature := signMessage env key method url messageToSign
      .ok { method := method, url := url,
            headers := baseHeaders ++ [("X-API-KEY", apiKey), ("X-Signature", signature)],
            body := data.map jsonStringify }
  else
    .ok { method := method, url := url,
          headers := baseHeaders ++ [("X-API-KEY", cfg.apiKey)],
          body := data.map jsonStringify }

/-! ### `placeOrder` from `trading.js` -/

/-- Model of `orderData.orderParams` as returned by `estimateOrder` (or by the
natural-language flow).  An empty string models a missing/empty quantity field:
both `undefined` and `""` are falsy in the `if` chain of `placeOrder`. -/
structure OrderParamsIn where
  customer_order_id : String
  contract : String
  type : String
  limit_price : String
  time_in_force : String
  reduce_only : Bool
  quantity_steps : String
  quantity_contracts : String
  quantity_assets : String
  timestamp : Nat
  recv_window : Nat
deriving DecidableEq

/-- The submission body built inside `placeOrder`: a fresh
`customer_order_id` of the form `cli-${Date.now()}` and a fresh `timestamp`
(both modelled with the single submission instant `now`), the carried-over
order fields, and exactly the first non-empty quantity field appended (object
literal first, conditional key added after, matching insertion order). -/
def buildSubmitParams (od : OrderParamsIn) (now : Nat) : List (String × Json) :=
  [("customer_order_id", Json.str ("cli-" ++ natDecimal now)),
   ("contract", Json.str od.contract),
   ("type", Json.str od.type),
   ("limit_price", Json.str od.limit_price),
   ("time_in_force", Json.str od.time_in_force),
   ("reduce_only", Json.bool od.reduce_only),
   ("timestamp", Json.num now),
   ("recv_window", Json.num 30000)] ++
  (if od.quantity_steps ≠ "" then [("quantity_steps", Json.str od.quantity_steps)]
   else if od.quantity_contracts ≠ "" then [("quantity_contracts", Json.str od.quantity_contracts)]
   else if od.quantity_assets ≠ "" then [("quantity_assets", Json.str od.quantity_assets)]
   else [])

inductive PlaceOrderOutcome where
  | noParams
  | cancelled
  | errored (msg : String)
  | submitted (req : HttpRequest)
deriving DecidableEq

/-- Model of `placeOrder` from `trading.js`: outcome plus the list of requests that
reach the venue.  The confirmation question is answered by `confirm`; only a
lowercase `yes` or `y` proceeds, anything else logs "Order cancelled by user."
and returns without any request. -/
def placeOrder {Key : Type} (env : CryptoEnv Key) (cfg : Config Key)
    (orderData : Option OrderParamsIn) (confirm : String) (now : Nat) :
    PlaceOrderOutcome × List HttpRequest :=
  match orderData with
  | none => (.noParams, [])
  | some od =>
    if toLowerStr confirm ≠ "yes" ∧ toLowerStr confirm ≠ "y" then
      (.cancelled, [])
    else
      let orderParams := Json.obj (buildSubmitParams od now)
      match apiRequest env cfg "POST" "/v1/trading/order" (some orderParams) true with
      | .error e => (.errored e, [])
      | .ok req => (.submitted req, [req])

/-- The `customer_order_id` field of the body `placeOrder` submits. -/
def submittedCustomerOrderId (od : OrderParamsIn) (now : Nat) : Option Json :=
  (buildSubmitParams od now).lookup "customer_order_id"


/-! ### Quantity-field bookkeeping for submission bodies -/

def quantityKeys : List String :=
  ["quantity_steps", "quantity_contracts", "quantity_assets"]

/-- How many of the three quantity fields appear in a serialized body. -/
def quantityFieldCount (fields : List (String × Json)) : Nat :=
  (fields.filter (fun p => quantityKeys.contains p.1)).length

/-! ### A concrete crypto environment for witnesses

`charBytes` encodes a character's code point in four big-endian bytes, so the
induced digest function is injective — a stand-in satisfying the
collision-freeness hypotheses at concrete inputs. -/

def charBytes (c : Char) : List (Fin 256) :=
  [⟨c.toNat / 16777216 % 256, Nat.mod_lt _ (by omega)⟩,
   ⟨c.toNat / 65536 % 256, Nat.mod_lt _ (by omega)⟩,
   ⟨c.toNat / 256 % 256, Nat.mod_lt _ (by omega)⟩,
   ⟨c.toNat % 256, Nat.mod_lt _ (by omega)⟩]

def strBytes (s : String) : List (Fin 256) :=
  s.data.flatMap charBytes

def cryptoEnv0 : CryptoEnv Unit :=
  { sha256 := strBytes
    sign := fun _ bs => bs
    derPublicKey := fun _ => List.replicate 44 ⟨7, by omega⟩ }

def cfg0 : Config Unit :=
  { apiUrl := "https://api.example.test", apiKey := "static-key", privateKey := some () }

def od0 : OrderParamsIn :=
  { customer_order_id := "cli-3", contract := "2", type := "market", limit_price := "0",
    time_in_force := "GTC", reduce_only := false, quantity_steps := "5",
    quantity_contracts := "", quantity_assets := "", timestamp := 3, recv_window := 30000 }

/-! ### JavaScript numeric/string primitives used by the validations

`Number(s)`, `parseInt(s)` and `parseFloat(s)` are modelled on the decimal
forms this program handles (optional sign, digits, optional fraction part; no
exponent or hex forms).  `none` models `NaN`. -/

def isWsChar (c : Char) : Bool := c.isWhitespace

def listTrim (cs : List Char) : List Char :=
  ((cs.dropWhile isWsChar).reverse.dropWhile isWsChar).reverse

/-- JS `String.prototype.trim`, kernel-reducible. -/
def trimStr (s : String) : String := ⟨listTrim s.data⟩

/-- A JS number that is an exact finite decimal: the value is
`mant / 10 ^ scale`.  All the numbers this program parses and compares are of
this form, and the representation keeps every operation kernel-reducible. -/
structure DecNum where
  mant : Int
  scale : Nat
deriving DecidableEq

/-- Comparison of exact decimals by cross-multiplication. -/
def DecNum.blt (a b : DecNum) : Bool :=
  decide (a.mant * (10 : Int) ^ b.scale < b.mant * (10 : Int) ^ a.scale)

def DecNum.neg (a : DecNum) : DecNum := ⟨-a.mant, a.scale⟩

/-- Model of `Number(s)` for a fully decimal string: `none` is `NaN`. -/
def parseDecCore (cs : List Char) : Option DecNum :=
  let ip := cs.takeWhile Char.isDigit
  let rest := cs.drop ip.length
  match rest with
  | [] => if ip.isEmpty then none else some ⟨(decToNat ip : Int), 0⟩
  | '.' :: frac =>
    if frac.all Char.isDigit ∧ (ip ≠ [] ∨ frac ≠ []) then
      some ⟨(decToNat ip : Int) * (10 : Int) ^ frac.length + (decToNat frac : Int),
            frac.length⟩
    else none
  | _ => none

/-- JS `Number(s)` (hence `isNaN(s)`): trims, empty string is 0, requires the
whole remainder to be a signed decimal numeral. -/
def jsNumber (s : String) : Option DecNum :=
  let cs := listTrim s.data
  match cs with
  | [] => some ⟨0, 0⟩
  | '-' :: rest => (parseDecCore rest).map DecNum.neg
  | '+' :: rest => parseDecCore rest
  | _ => parseDecCore cs

/-- JS `parseInt(s)` (base 10): longest digit prefix after optional sign. -/
def jsParseInt (s : String) : Option Int :=
  let cs := s.data.dropWhile isWsChar
  match cs with
  | '-' :: rest =>
    let ds := rest.takeWhile Char.isDigit
    if ds.isEmpty then none else some (-(decToNat ds : Int))
  | '+' :: rest =>
    let ds := rest.takeWhile Char.isDigit
    if ds.isEmpty then none else some ((decToNat ds : Int))
  | _ =>
    let ds := cs.takeWhile Char.isDigit
    if ds.isEmpty then none else some ((decToNat ds : Int))

def parseFloatCore (cs : List Char) : Option DecNum :=
  let ip := cs.takeWhile Char.isDigit
  let rest := cs.drop ip.length
  match rest with
  | '.' :: frac0 =>
    let frac := frac0.takeWhile Char.isDigit
    if ip.isEmpty ∧ frac.isEmpty then none
    else some ⟨(decToNat ip : Int) * (10 : Int) ^ frac.length + (decToNat frac : Int),
               frac.length⟩
  | _ => if ip.isEmpty then none else some ⟨(decToNat ip : Int), 0⟩

/-- JS `parseFloat(s)`: longest decimal prefix after optional sign. -/
def jsParseFloat (s : String) : Option DecNum :=
  let cs := s.data.dropWhile isWsChar
  match cs with
  | '-' :: rest => (parseFloatCore rest).map DecNum.neg
  | '+' :: rest => parseFloatCore rest
  | _ => parseFloatCore cs

/-- Strip trailing decimal zeros (JS prints the shortest decimal form). -/
def decNumNormAux : Nat → Int → Nat → Int × Nat
  | 0, m, s => (m, s)
  | fuel + 1, m, s =>
    if s = 0 then (m, s)
    else if m % 10 = 0 then decNumNormAux fuel (m / 10) (s - 1)
    else (m, s)

/-- JS number-to-string for the finite decimals this program handles. -/
def jsNumToString (q : DecNum) : String :=
  let p := decNumNormAux q.scale q.mant q.scale
  let ds := (natDecimal p.1.natAbs).data
  let core :=
    if p.2 = 0 then ds
    else if ds.length ≤ p.2 then '0' :: '.' :: (List.replicate (p.2 - ds.length) '0' ++ ds)
    else ds.take (ds.length - p.2) ++ '.' :: ds.drop (ds.length - p.2)
  (if p.1 < 0 then "-" else "") ++ (⟨core⟩ : String)

/-- JS number-to-string where `none` is `NaN`. -/
def jsNumToStringOpt : Option DecNum → String
  | none => "NaN"
  | some q => jsNumToString q

/-- JS `i.toString()` for an integer-valued number. -/
def intDecimal (i : Int) : String :=
  if i < 0 then "-" ++ natDecimal i.natAbs else natDecimal i.toNat

/-! ### `estimateOrder` from `trading.js`

Each interactive `while` loop keeps asking until an answer passes its
validation, so it is modelled as the first valid answer of the corresponding
input stream (`none` when the stream is exhausted — the session never reaches
the estimation call in that case). -/

def validOrderSide (s : String) : Bool :=
  toLowerStr s == "buy" || toLowerStr s == "sell"

def validOrderType (s : String) : Bool := s == "market" || s == "limit"

/-- Validation check `!isNaN(limitPrice) && parseFloat(limitPrice) > 0`. -/
def validLimitPrice (s : String) : Bool :=
  (jsNumber s).isSome &&
    (match jsParseFloat s with | some v => decide (0 < v.mant) | none => false)

def validTimeInForce (s : String) : Bool := ["GTC", "IOC", "FOK", "PO"].contains s

def validReduceOnlyAns (s : String) : Bool :=
  ["yes", "y", "no", "n"].contains (toLowerStr s)

/-- Validation check `!isNaN(quantitySteps) && parseInt(quantitySteps) > 0`. -/
def validQuantitySteps (s : String) : Bool :=
  (jsNumber s).isSome &&
    (match jsParseInt s with | some n => decide (0 < n) | none => false)

def firstValid (valid : String → Bool) : List String → Option String
  | [] => none
  | x :: xs => if valid x then some x else firstValid valid xs

/-- The body of the `/v1/trading/estimate-order` call built by `estimateOrder`. -/
structure EstimatePayload where
  contract : String
  type : String
  limit_price : String
  time_in_force : String
  reduce_only : Bool
  quantity_steps : String
  quantity_contracts : String
  quantity_assets : String
deriving DecidableEq

structure EstimateInputs where
  sideAnswers : List String
  typeAnswers : List String
  priceAnswers : List String
  tifAnswers : List String
  reduceOnlyAnswers : List String
  qtyAnswers : List String

/-- Model of `estimateOrder` from `trading.js` up to the estimation request: the
payload it sends, or `none` if some validation loop never got a valid answer.
The side is folded into the sign of `quantity_steps`; for market orders
`limit_price` stays `"0"`. -/
def limitPriceAnswer (orderType : String) (priceAnswers : List String) : Option String :=
  if orderType = "limit" then firstValid validLimitPrice priceAnswers else some "0"

def estimateOrder (contractId : Nat) (inp : EstimateInputs) : Option EstimatePayload := do
  let orderSide ← firstValid validOrderSide inp.sideAnswers
  let orderType ← firstValid validOrderType inp.typeAnswers
  let limitPrice ← limitPriceAnswer orderType inp.priceAnswers
  let timeInForce ← firstValid validTimeInForce inp.tifAnswers
  let roAnswer ← firstValid validReduceOnlyAns inp.reduceOnlyAnswers
  let reduceOnly := toLowerStr roAnswer == "yes" || toLowerStr roAnswer == "y"
  let quantitySteps ← firstValid validQuantitySteps inp.qtyAnswers
  let formattedQuantitySteps :=
    if toLowerStr orderSide = "buy" then quantitySteps else "-" ++ quantitySteps
  pure { contract := natDecimal contractId, type := orderType, limit_price := limitPrice,
         time_in_force := timeInForce, reduce_only := reduceOnly,
         quantity_steps := formattedQuantitySteps,
         quantity_contracts := "", quantity_assets := "" }

/-- The `orderParams` record `estimateOrder` returns for later submission
(`customer_order_id` and `timestamp` are taken at estimation instant `t0`). -/
def estimateOrderParams (p : EstimatePayload) (t0 : Nat) : OrderParamsIn :=
  { customer_order_id := "cli-" ++ natDecimal t0, contract := p.contract, type := p.type,
    limit_price := p.limit_price, time_in_force := p.time_in_force,
    reduce_only := p.reduce_only, quantity_steps := p.quantity_steps,
    quantity_contracts := "", quantity_assets := "", timestamp := t0, recv_window := 30000 }

/-! ### The natural-language order flow from `ai.js` -/

/-- The nullable fields the text-generation oracle returns for an instruction
(after the contract-resolution block has filled `contractId`). -/
structure ParsedOrder where
  contractId : Option Int
  orderSide : Option String
  orderType : Option String
  quantity : Option String
  limitPrice : Option String
  timeInForce : Option String
  reduceOnly : Option Bool

structure ContractDetails where
  contract_id : Int
  symbol : String
  min_order_size_contracts : Option String

/-- The estimation body built by `processNaturalLanguageOrder`. -/
structure NLOrderParams where
  contract : String
  type : String
  limit_price : String
  time_in_force : String
  reduce_only : Bool
  quantity_contracts : String
deriving DecidableEq

/-- Model of `processNaturalLanguageOrder` from `ai.js`, from the parsed oracle output
to the body of its `/v1/trading/estimate-order` call: prompts fill missing
side/quantity/limit price, defaults fill missing type/TIF/reduceOnly, the
quantity is clamped up to the contract's minimum order size when absent or too
small, the side is folded into the sign of `quantity_contracts`, and the call
is only made after an affirmative interpretation confirmation.  `none` means
the flow returned before estimating. -/
def processNaturalLanguageOrder (po : ParsedOrder) (contract : ContractDetails)
    (sideAns qtyAns priceAns confirmAns : String) : Option NLOrderParams :=
  match po.contractId with
  | none => none
  | some cid =>
    let orderSide := match po.orderSide with
      | some s => if s != "" then s else toLowerStr sideAns
      | none => toLowerStr sideAns
    let quantity0 := match po.quantity with
      | some s => if s != "" then s else trimStr qtyAns
      | none => trimStr qtyAns
    let orderType := match po.orderType with
      | some s => if s != "" then s else "market"
      | none => "market"
    let timeInForce := match po.timeInForce with
      | some s => if s != "" then s else "GTC"
      | none => "GTC"
    let reduceOnly := po.reduceOnly.getD false
    let limitPrice := match po.limitPrice with
      | some s => if s != "" then s else trimStr priceAns
      | none => trimStr priceAns
    let minStr := match contract.min_order_size_contracts with
      | some s => if s != "" then s else "0.001"
      | none => "0.001"
    let minOrderSize := jsParseFloat minStr
    let quantityNum := jsParseFloat quantity0
    let clamp : Bool := match quantityNum, minOrderSize with
      | none, _ => true
      | some qv, some mv => DecNum.blt qv mv
      | some _, none => false
    let quantity := if clamp then jsNumToStringOpt minOrderSize else quantity0
    if toLowerStr confirmAns != "yes" && toLowerStr confirmAns != "y" then none
    else some {
      contract := intDecimal cid,
      type := orderType,
      limit_price := if orderType = "limit" then limitPrice else "0",
      time_in_force := timeInForce,
      reduce_only := reduceOnly,
      quantity_contracts := if toLowerStr orderSide = "buy" then quantity else "-" ++ quantity }

/-! ### Contract resolution in `parseNaturalLanguageOrder` (`ai.js`) -/

structure AIContract where
  contract_id : Int
  symbol : String
  index : String

structure ResolvedContractRef where
  contractId : Option Int
  symbol : Option String
deriving DecidableEq

/-- The contract-resolution block of `parseNaturalLanguageOrder` (runs when the
oracle returned a truthy `contract`): a non-numeric hint is matched
case-insensitively against symbol or index and throws when nothing matches; a
numeric hint is `parseInt`ed and looked up by exact ID, but a failed lookup
does NOT throw — the id is kept with no symbol. -/
def resolveContract (contracts : List AIContract) (c : String) :
    Except String ResolvedContractRef :=
  if (jsNumber c).isNone then
    match contracts.find? (fun (k : AIContract) =>
        toLowerStr k.symbol == toLowerStr c || toLowerStr k.index == toLowerStr c) with
    | some m => .ok { contractId := some m.contract_id, symbol := some m.symbol }
    | none => .error ("Could not find a matching contract for: " ++ c)
  else
    let cid := jsParseInt c
    let matched := match cid with
      | some n => contracts.find? (fun (k : AIContract) => k.contract_id == n)
      | none => none
    .ok { contractId := cid, symbol := matched.map (fun k => k.symbol) }

/-! ### The narrative "Opportunity" extractor (`parseOpportunitiesFromAIResponse`)

The regexes of `ai.js` are embedded as explicit scanners over the character
list.  Case-insensitive literals model the `/i` flag; `\s*`/`\s+` are
whitespace runs (with the backtracking a regex engine performs before a
following character class); value captures are `([^\n,]+)` / `([^\n]+)`
classes; scanning for the first match position models how `String.match` and
`RegExp.exec` find the leftmost match. -/

def notNlComma (c : Char) : Bool := c != '\n' && c != ','

def notNl (c : Char) : Bool := c != '\n'

/-- Pattern `[A-Z0-9]` (case-sensitive use in the bare-symbol pattern). -/
def isUpperDigit (c : Char) : Bool := (decide ('A' ≤ c) && decide (c ≤ 'Z')) || c.isDigit

/-- Pattern `[A-Z0-9]` under the `/i` flag (the fallback triple pattern). -/
def isAlnumAscii (c : Char) : Bool := c.isAlpha || c.isDigit

/-- JS `\w` = `[A-Za-z0-9_]`. -/
def isWordChar (c : Char) : Bool := c.isAlphanum || c == '_'

/-- Match a lowercase literal case-insensitively at the head, returning the
rest of the input. -/
def dropCI : List Char → List Char → Option (List Char)
  | [], cs => some cs
  | _ :: _, [] => none
  | p :: ps, c :: cs => if p == c.toLower then dropCI ps cs else none

/-- Pattern `\s*` followed by a required character of class `cls`: greedy on the
whitespace run, backtracking (longest first) until a position whose character
the class accepts; returns the suffix where the capture begins. -/
def wsCaptureStartAux (cls : Char → Bool) (cs : List Char) : Nat → Option (List Char)
  | 0 =>
    match cs with
    | c :: _ => if cls c then some cs else none
    | [] => none
  | k + 1 =>
    match cs.drop (k + 1) with
    | c :: _ => if cls c then some (cs.drop (k + 1)) else wsCaptureStartAux cls cs k
    | [] => wsCaptureStartAux cls cs k

def wsCaptureStart (cls : Char → Bool) (cs : List Char) : Option (List Char) :=
  wsCaptureStartAux cls cs (cs.takeWhile isWsChar).length

/-- Pattern `:\s*(cls+)`: colon, whitespace, then a nonempty capture of `cls`. -/
def colonCapture (cls : Char → Bool) (cs : List Char) : Option (List Char) :=
  match cs with
  | ':' :: rest => (wsCaptureStart cls rest).map (fun suf => suf.takeWhile cls)
  | _ => none

/-- Pattern `label(?:\s+suffix)?:\s*([^\n,]+)` at the current position (labels given in
lowercase; matched case-insensitively).  The optional group is preferred, as a
greedy regex optional is, with fallback to the plain label when the rest of
the pattern fails. -/
def labelValueAt (label : List Char) (suffix : Option (List Char)) (cs : List Char) :
    Option (List Char) :=
  match dropCI label cs with
  | none => none
  | some r1 =>
    let withSuffix : Option (List Char) :=
      match suffix with
      | none => none
      | some suf =>
        let w := r1.takeWhile isWsChar
        if w.isEmpty then none
        else
          match dropCI suf (r1.drop w.length) with
          | some r2 => colonCapture notNlComma r2
          | none => none
    match withSuffix with
    | some v => some v
    | none => colonCapture notNlComma r1

/-- Leftmost match of a position matcher, like `String.match`. -/
def scanFirst (f : List Char → Option (List Char)) : List Char → Option (List Char)
  | [] => f []
  | c :: cs =>
    match f (c :: cs) with
    | some v => some v
    | none => scanFirst f cs

/-- Model of `extractValue` from `ai.js` for the `Label(?:\s+Word)?:\s*([^\n,]+)`
patterns: first match's capture, trimmed; `none` when there is no match. -/
def extractValue (text : List Char) (label : String) (suffix : Option String) :
    Option String :=
  (scanFirst (labelValueAt label.data (suffix.map String.data)) text).map
    (fun l => trimStr ⟨l⟩)

/-- Pattern `([A-Z0-9]+-[A-Z0-9]+)` at the current position (no `/i` flag on this
one): maximal alphanumeric-uppercase runs around a dash. -/
def symbolTokenAt (cs : List Char) : Option (List Char) :=
  let p1 := cs.takeWhile isUpperDigit
  if p1.isEmpty then none
  else
    match cs.drop p1.length with
    | '-' :: rest =>
      let p2 := rest.takeWhile isUpperDigit
      if p2.isEmpty then none else some (p1 ++ '-' :: p2)
    | _ => none

/-- Pattern `\b(w)\b` case-insensitively at the current position, given the previous
character for the left boundary; returns the matched text (original case). -/
def wordAt (w : List Char) (prev : Option Char) (cs : List Char) : Option (List Char) :=
  let leftOk := match prev with
    | none => true
    | some c => !(isWordChar c)
  if leftOk then
    match dropCI w cs with
    | some rest =>
      let rightOk := match rest with
        | [] => true
        | c :: _ => !(isWordChar c)
      if rightOk then some (cs.take w.length) else none
    | none => none
  else none

/-- First `\b(w1|w2)\b` match (case-insensitive), scanning left to right. -/
def findWord2 (w1 w2 : List Char) : Option Char → List Char → Option (List Char)
  | _, [] => none
  | prev, c :: cs =>
    match wordAt w1 prev (c :: cs) with
    | some m => some m
    | none =>
      match wordAt w2 prev (c :: cs) with
      | some m => some m
      | none => findWord2 w1 w2 (some c) cs

def beginsWith (pat : List Char) (cs : List Char) : Bool :=
  match pat, cs with
  | [], _ => true
  | _ :: _, [] => false
  | p :: ps, c :: cs => p == c && beginsWith ps cs

/-- JS `String.prototype.indexOf` for an exact (case-sensitive) substring. -/
def indexOfSub (pat : List Char) : List Char → Option Nat
  | [] => if pat.isEmpty then some 0 else none
  | c :: cs =>
    if beginsWith pat (c :: cs) then some 0
    else (indexOfSub pat cs).map (· + 1)

/-- Model of `extractBuyOrSell` from `ai.js`: `buy` wins if it matched and either no
sell match exists or its matched text first occurs earlier (`indexOf` of the
matched substring, as the source does). -/
def extractBuyOrSell (text : List Char) : Option String :=
  let bm := findWord2 "buy".data "long".data none text
  let sm := findWord2 "sell".data "short".data none text
  match bm, sm with
  | some _, none => some "buy"
  | some b, some s' =>
    if (indexOfSub b text).getD 0 < (indexOfSub s' text).getD 0 then some "buy"
    else some "sell"
  | none, some _ => some "sell"
  | none, none => none

/-- Pattern `label(?:\s+word)?[^\d]*(\d[\d,.]*)` at the current position.  Whether or
not the optional word matches, `[^\d]*` skips to the same first digit, so the
optional group needs no separate handling. -/
def priceAt (label : List Char) (cs : List Char) : Option (List Char) :=
  match dropCI label cs with
  | none => none
  | some r1 =>
    match r1.dropWhile (fun c => !c.isDigit) with
    | c :: rest => some (c :: rest.takeWhile (fun d => d.isDigit || d == ',' || d == '.'))
    | [] => none

/-- Model of `extractPrice` from `ai.js`: first match's capture, trimmed. -/
def extractPrice (text : List Char) (label : String) : Option String :=
  (scanFirst (priceAt label.data) text).map (fun l => trimStr ⟨l⟩)

/-- Pattern `(?:\n[^\n]+)*`: greedy run of newline-plus-nonempty-line. -/
def moreLinesAux : Nat → List Char → List Char
  | 0, _ => []
  | _ + 1, [] => []
  | fuel + 1, c :: cs =>
    if c == '\n' then
      let line := cs.takeWhile notNl
      if line.isEmpty then []
      else '\n' :: (line ++ moreLinesAux fuel (cs.drop line.length))
    else []

/-- Model of `Rationale:\s*([^\n]+(?:\n[^\n]+)*)` at the current position. -/
def rationaleAt (cs : List Char) : Option (List Char) :=
  match dropCI "rationale".data cs with
  | some (':' :: rest) =>
    match wsCaptureStart notNl rest with
    | some suf =>
      let l1 := suf.takeWhile notNl
      some (l1 ++ moreLinesAux suf.length (suf.drop l1.length))
    | none => none
  | _ => none

def extractRationale (text : List Char) : Option String :=
  (scanFirst rationaleAt text).map (fun l => trimStr ⟨l⟩)

def isSentSep (c : Char) : Bool := c == '.' || c == '!' || c == '?'

/-- JS `text.split(/[.!?]+/)`. -/
def splitSentencesAux : Nat → List Char → List (List Char)
  | 0, _ => []
  | fuel + 1, cs =>
    let chunk := cs.takeWhile (fun c => !isSentSep c)
    let rest := cs.drop chunk.length
    match rest with
    | [] => [chunk]
    | _ => chunk :: splitSentencesAux fuel (rest.dropWhile isSentSep)

/-- Model of `extractLastSentence` from `ai.js`: last nonblank sentence, trimmed. -/
def extractLastSentence (text : List Char) : Option String :=
  let parts := (splitSentencesAux (text.length + 1) text).filter
    (fun s => !(trimStr ⟨s⟩).isEmpty)
  match parts.getLast? with
  | some s => some (trimStr ⟨s⟩)
  | none => none

/-- JS `a || b` over nullable strings (`null` and `""` are falsy). -/
def jsOrOpt (a b : Option String) : Option String :=
  match a with
  | some s => if s != "" then some s else b
  | none => b

/-- JS `a || "default"`. -/
def jsOrDefault (a : Option String) (d : String) : String :=
  match a with
  | some s => if s != "" then s else d
  | none => d

/-- Model of `Opportunity\s+(\d+):` at the current position: digit capture and the rest
after the colon. -/
def headerAt (cs : List Char) : Option (List Char × List Char) :=
  match dropCI "opportunity".data cs with
  | none => none
  | some r1 =>
    let w := r1.takeWhile isWsChar
    if w.isEmpty then none
    else
      let r2 := r1.drop w.length
      let ds := r2.takeWhile Char.isDigit
      if ds.isEmpty then none
      else
        match r2.drop ds.length with
        | ':' :: rest => some (ds, rest)
        | _ => none

def findHeader : List Char → Option (List Char × List Char)
  | [] => none
  | c :: cs =>
    match headerAt (c :: cs) with
    | some r => some r
    | none => findHeader cs

/-- Pattern `([\s\S]*?)` up to the `(?=Opportunity\s+\d+:|$)` lookahead: the block body
and the rest starting at the next header (or the end). -/
def takeUntilHeader : List Char → List Char × List Char
  | [] => ([], [])
  | c :: cs =>
    if (headerAt (c :: cs)).isSome then ([], c :: cs)
    else
      let p := takeUntilHeader cs
      (c :: p.1, p.2)

/-- The `exec` loop over `/Opportunity\s+(\d+):([\s\S]*?)(?=Opportunity\s+\d+:|$)/gi`:
successive (number, body) blocks. -/
def opportunityBlocks : Nat → List Char → List (Nat × List Char)
  | 0, _ => []
  | fuel + 1, cs =>
    match findHeader cs with
    | none => []
    | some (ds, rest) =>
      let p := takeUntilHeader rest
      (decToNat ds, p.1) :: opportunityBlocks fuel p.2

structure Opportunity where
  number : Nat
  symbol : Option String
  action : Option String
  entryPrice : String
  stopLoss : String
  takeProfit : String
  positionSize : String
  riskLevel : String
  rationale : String
deriving DecidableEq

/-- One labeled block turned into an `Opportunity`, with the `||` chains and
defaults of `parseOpportunitiesFromAIResponse`. -/
def buildOpportunity (number : Nat) (body : List Char) : Opportunity :=
  let text := listTrim body
  { number := number
    symbol := jsOrOpt (jsOrOpt (extractValue text "contract" (some "symbol"))
        (extractValue text "symbol" none))
      ((scanFirst symbolTokenAt text).map (fun l => trimStr ⟨l⟩))
    action := jsOrOpt (extractValue text "action" none) (extractBuyOrSell text)
    entryPrice := jsOrDefault (jsOrOpt (extractValue text "entry" (some "price"))
        (extractPrice text "entry")) "0"
    stopLoss := jsOrDefault (jsOrOpt (extractValue text "stop" (some "loss"))
        (extractPrice text "stop")) "0"
    takeProfit := jsOrDefault (jsOrOpt (extractValue text "take" (some "profit"))
        (extractPrice text "take")) "0"
    positionSize := jsOrDefault (jsOrOpt (extractValue text "position" (some "size"))
        (extractValue text "size" (some "recommendation"))) "small"
    riskLevel := jsOrDefault (extractValue text "risk" (some "level")) "medium"
    rationale := jsOrDefault (jsOrOpt (extractRationale text)
        (extractLastSentence text)) "No rationale provided" }

/-- Pattern `[^\n]*?(buy|sell)`: nearest case-insensitive buy/sell on the current
line; returns (matched text, rest). -/
def scanLineWord2 (w1 w2 : List Char) : List Char → Option (List Char × List Char)
  | [] => none
  | c :: cs =>
    match dropCI w1 (c :: cs) with
    | some rest => some ((c :: cs).take w1.length, rest)
    | none =>
      match dropCI w2 (c :: cs) with
      | some rest => some ((c :: cs).take w2.length, rest)
      | none => if c == '\n' then none else scanLineWord2 w1 w2 cs

/-- Pattern `[^\n]*?(\d+(?:\.\d+)?)`: nearest number on the current line; returns
(matched number text, rest). -/
def scanLineNumber : List Char → Option (List Char × List Char)
  | [] => none
  | c :: cs =>
    if c.isDigit then
      let ds := (c :: cs).takeWhile Char.isDigit
      let rest := (c :: cs).drop ds.length
      match rest with
      | '.' :: r2 =>
        let fs := r2.takeWhile Char.isDigit
        if fs.isEmpty then some (ds, rest)
        else some (ds ++ '.' :: fs, r2.drop fs.length)
      | _ => some (ds, rest)
    else if c == '\n' then none
    else scanLineNumber cs

/-- Backtracking over the length of the second `[A-Z0-9]+` run (longest
first), as the regex engine does before the lazy tail. -/
def tripleP2Try (p1 p2full r1 : List Char) :
    Nat → Option (List Char × List Char × List Char × List Char)
  | 0 => none
  | k + 1 =>
    let rest := r1.drop (k + 1)
    match scanLineWord2 "buy".data "sell".data rest with
    | some (act, r2) =>
      match scanLineNumber r2 with
      | some (num, r3) => some (p1 ++ '-' :: p2full.take (k + 1), act, num, r3)
      | none => tripleP2Try p1 p2full r1 k
    | none => tripleP2Try p1 p2full r1 k

/-- Pattern `([A-Z0-9]+-[A-Z0-9]+)[^\n]*?(buy|sell)[^\n]*?(\d+(?:\.\d+)?)` under `/i`
at the current position: (symbol, action, number, rest after match). -/
def tripleAt (cs : List Char) : Option (List Char × List Char × List Char × List Char) :=
  let p1 := cs.takeWhile isAlnumAscii
  if p1.isEmpty then none
  else
    match cs.drop p1.length with
    | '-' :: r1 =>
      let p2full := r1.takeWhile isAlnumAscii
      if p2full.isEmpty then none
      else tripleP2Try p1 p2full r1 p2full.length
    | _ => none

/-- The relaxed `exec` loop: one `Opportunity` per triple, numbered from 1. -/
def fallbackTriples : Nat → Nat → List Char → List Opportunity
  | 0, _, _ => []
  | fuel + 1, count, cs =>
    match cs with
    | [] => []
    | c :: rest =>
      match tripleAt (c :: rest) with
      | some (sym, act, num, r3) =>
        { number := count, symbol := some ⟨sym⟩, action := some ⟨act⟩,
          entryPrice := ⟨num⟩, stopLoss := "0", takeProfit := "0",
          positionSize := "small", riskLevel := "medium",
          rationale := "Extracted from AI analysis" } :: fallbackTriples fuel (count + 1) r3
      | none => fallbackTriples fuel count rest

/-- Model of `parseOpportunitiesFromAIResponse` from `ai.js`: labeled blocks first,
then — only when none were found — the relaxed whole-text triple scan. -/
def parseOpportunitiesFromAIResponse (content : String) : List Opportunity :=
  let cs := content.data
  let blocks := opportunityBlocks (cs.length + 1) cs
  let opportunities := blocks.map (fun b => buildOpportunity b.1 b.2)
  if opportunities.isEmpty then fallbackTriples (cs.length + 1) 1 cs
  else opportunities

/-! ## Theorems -/

/-! ### Injectivity facts about the hex encoding and the canonical message -/

theorem hexDigitChar_inj_lt {a b : Nat} (ha : a < 16) (hb : b < 16)
    (h : hexDigitChar a = hexDigitChar b) : a = b := by
  interval_cases a <;> interval_cases b <;> revert h <;> decide

theorem byteToHex_injective : Function.Injective byteToHex := by
  intro a b h
  rw [byteToHex, byteToHex] at h
  injection h with h1 h23
  injection h23 with h2 _
  have e1 : a.val / 16 = b.val / 16 :=
    hexDigitChar_inj_lt (Nat.div_lt_of_lt_mul a.isLt) (Nat.div_lt_of_lt_mul b.isLt) h1
  have e2 : a.val % 16 = b.val % 16 :=
    hexDigitChar_inj_lt (Nat.mod_lt _ (by omega)) (Nat.mod_lt _ (by omega)) h2
  apply Fin.ext
  omega

theorem flatMap_fixed_len_injective {α β : Type} (f : α → List β) (k : Nat)
    (hk : 0 < k) (hlen : ∀ a, (f a).length = k) (hf : Function.Injective f) :
    Function.Injective (fun l : List α => l.flatMap f) := by
  intro l1 l2 h
  simp only at h
  induction l1 generalizing l2 with
  | nil =>
    cases l2 with
    | nil => rfl
    | cons b bs =>
      exfalso
      have hL : (([] : List α).flatMap f).length = ((b :: bs).flatMap f).length := by rw [h]
      simp only [List.flatMap_nil, List.flatMap_cons, List.length_nil,
        List.length_append, hlen b] at hL
      omega
  | cons a as ih =>
    cases l2 with
    | nil =>
      exfalso
      have hL : ((a :: as).flatMap f).length = (([] : List α).flatMap f).length := by rw [h]
      simp only [List.flatMap_nil, List.flatMap_cons, List.length_nil,
        List.length_append, hlen a] at hL
      omega
    | cons b bs =>
      simp only [List.flatMap_cons] at h
      have hl : (f a).length = (f b).length := by rw [hlen a, hlen b]
      obtain ⟨hfa, hrest⟩ := List.append_inj h hl
      rw [hf hfa, ih hrest]

theorem hexEncode_injective : Function.Injective hexEncode := by
  intro a b h
  have hdata : a.flatMap byteToHex = b.flatMap byteToHex := congrArg String.data h
  exact flatMap_fixed_len_injective byteToHex 2 (by omega) (fun _ => rfl)
    byteToHex_injective hdata

/-- For fixed method and URL the canonical message determines the body:
string concatenation with a fixed prefix is injective. -/
theorem getMessageForSigning_body_inj (method url : String) {body body' : String}
    (h : getMessageForSigning method url body = getMessageForSigning method url body') :
    body = body' := by
  have hdata : (method ++ " " ++ url ++ "\n").data ++ body.data
      = (method ++ " " ++ url ++ "\n").data ++ body'.data := by
    have := congrArg String.data h
    simpa [getMessageForSigning, String.data_append] using this
  have hbd : body.data = body'.data := List.append_inj_right hdata rfl
  cases body; cases body'; exact congrArg String.mk hbd

theorem decToNat_append_digit (l : List Char) (c : Char) :
    decToNat (l ++ [c]) = decToNat l * 10 + (c.toNat - 48) := by
  simp [decToNat, List.foldl_append]

theorem hexDigitChar_toNat_of_lt {d : Nat} (hd : d < 10) :
    (hexDigitChar d).toNat - 48 = d := by
  interval_cases d <;> decide

theorem decToNat_natDecAux : ∀ fuel n, n < fuel → decToNat (natDecAux fuel n) = n := by
  intro fuel
  induction fuel with
  | zero => intro n h; omega
  | succ fuel ih =>
    intro n h
    by_cases h10 : n < 10
    · simp only [natDecAux, if_pos h10, decToNat, List.foldl_cons, List.foldl_nil]
      rw [Nat.mod_eq_of_lt h10]
      have := hexDigitChar_toNat_of_lt h10
      omega
    · simp only [natDecAux, if_neg h10]
      rw [decToNat_append_digit]
      have hdiv : n / 10 < fuel := by omega
      rw [ih (n / 10) hdiv, hexDigitChar_toNat_of_lt (Nat.mod_lt _ (by omega))]
      omega

theorem natDecimal_injective : Function.Injective natDecimal := by
  intro a b h
  have hdata : natDecAux (a + 1) a = natDecAux (b + 1) b := congrArg String.data h
  have := decToNat_natDecAux (a + 1) a (by omega)
  rw [hdata, decToNat_natDecAux (b + 1) b (by omega)] at this
  omega

/-- Appending to a fixed string prefix is injective. -/
theorem string_append_left_cancel (p : String) {a b : String}
    (h : p ++ a = p ++ b) : a = b := by
  have hdata : p.data ++ a.data = p.data ++ b.data := by
    have := congrArg String.data h
    simpa [String.data_append] using this
  have hab : a.data = b.data := List.append_inj_right hdata rfl
  cases a; cases b; exact congrArg String.mk hab
theorem charBytes_injective : Function.Injective charBytes := by
  intro a b h
  simp only [charBytes, List.cons.injEq, and_true, Fin.mk.injEq] at h
  obtain ⟨h1, h2, h3, h4⟩ := h
  have ha : a.toNat < 4294967296 := UInt32.toNat_lt a.val
  have hb : b.toNat < 4294967296 := UInt32.toNat_lt b.val
  have : a.toNat = b.toNat := by omega
  exact Char.ext (UInt32.ext this)

theorem strBytes_injective : Function.Injective strBytes := by
  intro a b h
  have hd : a.data = b.data :=
    flatMap_fixed_len_injective charBytes 4 (by omega) (fun _ => rfl) charBytes_injective h
  cases a; cases b; exact congrArg String.mk hd

/-- C1: for every method, URL, body and private key, `signMessage` hex-encodes
the signature of exactly the SHA-256 digest of `"{METHOD} {URL}\n{BODY}"` (no
further hashing); being a pure composition it is deterministic in
{method, url, body, key}; and, for a collision-free digest and an injective
deterministic signing primitive, changing any single byte of the body changes
the resulting signature. -/
theorem signMessage_canonical_and_body_sensitive {Key : Type}
    (env : CryptoEnv Key) (key : Key) (method url body body' : String)
    (hsha : Function.Injective env.sha256)
    (hsign : Function.Injective (env.sign key)) :
    signMessage env key method url body
        = hexEncode (env.sign key (env.sha256 (getMessageForSigning method url body)))
      ∧ (body ≠ body' →
          signMessage env key method url body ≠ signMessage env key method url body') := by
  refine ⟨rfl, fun hne heq => hne ?_⟩
  exact getMessageForSigning_body_inj method url (hsha (hsign (hexEncode_injective heq)))

theorem signMessage_canonical_and_body_sensitive_witness :
    signMessage cryptoEnv0 () "POST" "/v1/trading/order" "\x7b\"q\":\"1\"\x7d"
        = hexEncode (cryptoEnv0.sign () (cryptoEnv0.sha256
            (getMessageForSigning "POST" "/v1/trading/order" "\x7b\"q\":\"1\"\x7d")))
      ∧ signMessage cryptoEnv0 () "POST" "/v1/trading/order" "\x7b\"q\":\"1\"\x7d"
        ≠ signMessage cryptoEnv0 () "POST" "/v1/trading/order" "\x7b\"q\":\"2\"\x7d" := by
  have h := signMessage_canonical_and_body_sensitive cryptoEnv0 () "POST" "/v1/trading/order"
    "\x7b\"q\":\"1\"\x7d" "\x7b\"q\":\"2\"\x7d" strBytes_injective (fun _ _ hh => hh)
  exact ⟨h.1, h.2 (by decide)⟩

/-- C2: whenever `placeOrder` submits, the string over which the `X-Signature`
header was computed is byte-identical to the transmitted serialized body (both
are the single `JSON.stringify` of the same order object, with the request's
own method and URL in the canonical message). -/
theorem placeOrder_signs_transmitted_body {Key : Type} (env : CryptoEnv Key)
    (cfg : Config Key) (key : Key) (od : OrderParamsIn) (confirm : String) (now : Nat)
    (hkey : cfg.privateKey = some key) (req : HttpRequest) (reqs : List HttpRequest)
    (h : placeOrder env cfg (some od) confirm now = (.submitted req, reqs)) :
    ∃ b : String, req.body = some b
      ∧ ("X-Signature", signMessage env key req.method req.url b) ∈ req.headers := by
  unfold placeOrder at h
  split_ifs at h with hc
  · exact absurd (congrArg Prod.fst h) (by simp)
  · simp only [apiRequest, hkey, jsonStringifyOpt, Option.map_some] at h
    obtain ⟨hreq, -⟩ := Prod.mk.injEq .. ▸ h
    injection hreq with hreq
    subst hreq
    exact ⟨jsonStringify (Json.obj (buildSubmitParams od now)), rfl, by simp⟩

theorem placeOrder_signs_transmitted_body_witness :
    ∃ req reqs, placeOrder cryptoEnv0 cfg0 (some od0) "yes" 5 = (.submitted req, reqs)
      ∧ ∃ b : String, req.body = some b
        ∧ ("X-Signature", signMessage cryptoEnv0 () req.method req.url b) ∈ req.headers := by
  refine ⟨_, _, rfl, ?_⟩
  exact placeOrder_signs_transmitted_body cryptoEnv0 cfg0 () od0 "yes" 5 rfl _ _ rfl

/-- C3: any confirmation answer whose lowercase form is neither `yes` nor `y`
makes `placeOrder` terminate as cancelled, and no request is dispatched to the
venue (the side-effect list is empty; the submission call is never reached). -/
theorem placeOrder_cancelled_on_nonaffirmative {Key : Type} (env : CryptoEnv Key)
    (cfg : Config Key) (od : OrderParamsIn) (confirm : String) (now : Nat)
    (h1 : toLowerStr confirm ≠ "yes") (h2 : toLowerStr confirm ≠ "y") :
    placeOrder env cfg (some od) confirm now = (.cancelled, []) := by
  simp only [placeOrder]
  rw [if_pos ⟨h1, h2⟩]

theorem placeOrder_cancelled_on_nonaffirmative_witness :
    placeOrder cryptoEnv0 cfg0 (some od0) "no" 5 = (.cancelled, []) :=
  placeOrder_cancelled_on_nonaffirmative cryptoEnv0 cfg0 od0 "no" 5 (by decide) (by decide)

/-- C4: the `customer_order_id` submitted by `placeOrder` is generated at the
submission instant (`cli-${Date.now()}`): it ignores the id generated at
estimation time, and two submission attempts from the same estimated order
data at distinct instants carry distinct ids. -/
theorem placeOrder_fresh_customer_order_id (od : OrderParamsIn) (t0 t1 t2 : Nat)
    (hod : od.customer_order_id = "cli-" ++ natDecimal t0)
    (h01 : t0 ≠ t1) (h12 : t1 ≠ t2) :
    submittedCustomerOrderId od t1 = some (Json.str ("cli-" ++ natDecimal t1))
      ∧ submittedCustomerOrderId od t1 ≠ some (Json.str od.customer_order_id)
      ∧ submittedCustomerOrderId od t1 ≠ submittedCustomerOrderId od t2 := by
  have hlookup : ∀ t, submittedCustomerOrderId od t
      = some (Json.str ("cli-" ++ natDecimal t)) := fun t => rfl
  refine ⟨hlookup t1, ?_, ?_⟩
  · rw [hlookup t1, hod]
    intro h
    injection h with h
    injection h with h
    exact h01 (natDecimal_injective (string_append_left_cancel "cli-" h)).symm
  · rw [hlookup t1, hlookup t2]
    intro h
    injection h with h
    injection h with h
    exact h12 (natDecimal_injective (string_append_left_cancel "cli-" h))

theorem placeOrder_fresh_customer_order_id_witness :
    submittedCustomerOrderId od0 5 = some (Json.str ("cli-" ++ natDecimal 5))
      ∧ submittedCustomerOrderId od0 5 ≠ some (Json.str od0.customer_order_id)
      ∧ submittedCustomerOrderId od0 5 ≠ submittedCustomerOrderId od0 7 :=
  placeOrder_fresh_customer_order_id od0 3 5 7 rfl (by decide) (by decide)

/-- C5: a submission body contains at most one of `quantity_steps`,
`quantity_contracts`, `quantity_assets`; exactly one as soon as the estimated
order carried any non-empty quantity field; and its keys are drawn from the
fixed field list plus that single quantity key — in particular no separate
side flag exists past validation (the side lives in the sign of the one
quantity value). -/
theorem submit_body_single_quantity_field (od : OrderParamsIn) (now : Nat)
    (hq : od.quantity_steps ≠ "" ∨ od.quantity_contracts ≠ "" ∨ od.quantity_assets ≠ "") :
    quantityFieldCount (buildSubmitParams od now) = 1
      ∧ (∀ od' : OrderParamsIn, quantityFieldCount (buildSubmitParams od' now) ≤ 1)
      ∧ ∀ p ∈ buildSubmitParams od now,
          p.1 ∈ ["customer_order_id", "contract", "type", "limit_price", "time_in_force",
                 "reduce_only", "timestamp", "recv_window"] ++ quantityKeys := by
  refine ⟨?_, ?_, ?_⟩
  · unfold buildSubmitParams quantityFieldCount
    split_ifs with h1 h2 h3 <;>
      simp_all [quantityKeys, List.filter_append]
  · intro od'
    unfold buildSubmitParams quantityFieldCount
    split_ifs <;> simp [quantityKeys, List.filter_append]
  · intro p hp
    unfold buildSubmitParams at hp
    split_ifs at hp <;> simp_all [quantityKeys] <;> rcases hp with h | h | h | h | h | h | h | h | h <;>
      simp_all

theorem submit_body_single_quantity_field_witness :
    quantityFieldCount (buildSubmitParams od0 5) = 1
      ∧ (∀ od' : OrderParamsIn, quantityFieldCount (buildSubmitParams od' 5) ≤ 1)
      ∧ ∀ p ∈ buildSubmitParams od0 5,
          p.1 ∈ ["customer_order_id", "contract", "type", "limit_price", "time_in_force",
                 "reduce_only", "timestamp", "recv_window"] ++ quantityKeys :=
  submit_body_single_quantity_field od0 5 (Or.inl (by decide))

theorem firstValid_some {valid : String → Bool} :
    ∀ {l : List String} {x : String}, firstValid valid l = some x → valid x = true := by
  intro l
  induction l with
  | nil => intro x h; simp [firstValid] at h
  | cons a as ih =>
    intro x h
    by_cases ha : valid a
    · simp only [firstValid, ha, if_pos, Option.some.injEq] at h
      rw [← h]; exact ha
    · simp only [firstValid, ha, Bool.false_eq_true, if_neg, not_false_iff] at h
      exact ih h

/-- C6 (amended): every payload the interactive `estimateOrder` form sends to
the estimation endpoint passed the gate — `time_in_force` is one of the four
allowed values, the quantity is a signed copy of a validated non-NaN string
with a strictly positive integer magnitude, the order type is market or limit,
a limit order carries a positive limit price, and a market order carries
`"0"`.  (The natural-language path does not re-validate the oracle's
`timeInForce` or limit price; see the counterexample.) -/
theorem estimateOrder_gate (contractId : Nat) (inp : EstimateInputs) (p : EstimatePayload)
    (h : estimateOrder contractId inp = some p) :
    p.time_in_force ∈ ["GTC", "IOC", "FOK", "PO"]
      ∧ (∃ q : String, (p.quantity_steps = q ∨ p.quantity_steps = "-" ++ q)
          ∧ (jsNumber q).isSome = true ∧ ∃ n : Int, jsParseInt q = some n ∧ 0 < n)
      ∧ (p.type = "market" ∨ p.type = "limit")
      ∧ (p.type = "limit" → ∃ v : DecNum, jsParseFloat p.limit_price = some v ∧ 0 < v.mant)
      ∧ (p.type = "market" → p.limit_price = "0") := by
  unfold estimateOrder at h
  cases hside : firstValid validOrderSide inp.sideAnswers with
  | none => rw [hside] at h; simp at h
  | some side =>
  rw [hside] at h
  simp only [Option.bind_eq_bind, Option.some_bind] at h
  cases htype : firstValid validOrderType inp.typeAnswers with
  | none => rw [htype] at h; simp at h
  | some type' =>
  rw [htype] at h
  simp only [Option.some_bind] at h
  cases hlp0 : limitPriceAnswer type' inp.priceAnswers with
  | none => rw [hlp0] at h; simp at h
  | some lp =>
  rw [hlp0] at h
  simp only [Option.some_bind] at h
  cases htif : firstValid validTimeInForce inp.tifAnswers with
  | none => rw [htif] at h; simp at h
  | some tif =>
  rw [htif] at h
  simp only [Option.some_bind] at h
  cases hro : firstValid validReduceOnlyAns inp.reduceOnlyAnswers with
  | none => rw [hro] at h; simp at h
  | some ro =>
  rw [hro] at h
  simp only [Option.some_bind] at h
  cases hq : firstValid validQuantitySteps inp.qtyAnswers with
  | none => rw [hq] at h; simp at h
  | some q =>
  rw [hq] at h
  simp only [Option.some_bind, Option.pure_def, Option.some.injEq] at h
  subst h
  have htif' := firstValid_some htif
  have htype' := firstValid_some htype
  have hq' := firstValid_some hq
  simp only [validQuantitySteps, Bool.and_eq_true] at hq'
  obtain ⟨hqnum, hqint⟩ := hq'
  refine ⟨?_, ?_, ?_, ?_, ?_⟩
  · simpa [validTimeInForce] using htif'
  · refine ⟨q, ?_, hqnum, ?_⟩
    · by_cases hbuy : toLowerStr side = "buy" <;> simp [hbuy]
    · cases hpi : jsParseInt q with
      | none => rw [hpi] at hqint; simp at hqint
      | some n =>
        rw [hpi] at hqint
        exact ⟨n, rfl, of_decide_eq_true hqint⟩
  · simpa [validOrderType] using htype'
  · intro hlim
    simp only at hlim
    rw [limitPriceAnswer, if_pos hlim] at hlp0
    have hlp' := firstValid_some hlp0
    simp only [validLimitPrice, Bool.and_eq_true] at hlp'
    obtain ⟨-, hpos⟩ := hlp'
    cases hpf : jsParseFloat lp with
    | none => rw [hpf] at hpos; simp at hpos
    | some v =>
      rw [hpf] at hpos
      exact ⟨v, rfl, of_decide_eq_true hpos⟩
  · intro hmkt
    simp only at hmkt
    rw [hmkt, limitPriceAnswer, if_neg (by decide)] at hlp0
    simpa using hlp0.symm

theorem estimateOrder_gate_witness :
    ∃ p : EstimatePayload,
      estimateOrder 2
          { sideAnswers := ["hold", "sell"], typeAnswers := ["lmt", "limit"],
            priceAnswers := ["-5", "100.5"], tifAnswers := ["ASAP", "FOK"],
            reduceOnlyAnswers := ["maybe", "no"], qtyAnswers := ["0", "3"] } = some p
        ∧ (p.time_in_force ∈ ["GTC", "IOC", "FOK", "PO"]
            ∧ (∃ q : String, (p.quantity_steps = q ∨ p.quantity_steps = "-" ++ q)
                ∧ (jsNumber q).isSome = true ∧ ∃ n : Int, jsParseInt q = some n ∧ 0 < n)
            ∧ (p.type = "market" ∨ p.type = "limit")
            ∧ (p.type = "limit" → ∃ v : DecNum, jsParseFloat p.limit_price = some v ∧ 0 < v.mant)
            ∧ (p.type = "market" → p.limit_price = "0")) := by
  have h : estimateOrder 2
      { sideAnswers := ["hold", "sell"], typeAnswers := ["lmt", "limit"],
        priceAnswers := ["-5", "100.5"], tifAnswers := ["ASAP", "FOK"],
        reduceOnlyAnswers := ["maybe", "no"], qtyAnswers := ["0", "3"] }
      = some { contract := "2", type := "limit", limit_price := "100.5",
               time_in_force := "FOK", reduce_only := false, quantity_steps := "-3",
               quantity_contracts := "", quantity_assets := "" } := by decide
  exact ⟨_, h, estimateOrder_gate 2 _ _ h⟩

/-- C6 counterexample: the natural-language flow does not re-validate the
oracle's `timeInForce` — here an order with `time_in_force = "ASAP"`, outside
the fixed enum, reaches the estimation call. -/
theorem processNL_estimates_unvalidated_time_in_force :
    ∃ params : NLOrderParams,
      processNaturalLanguageOrder
          { contractId := some 2, orderSide := some "buy", orderType := some "market",
            quantity := some "0.5", limitPrice := none, timeInForce := some "ASAP",
            reduceOnly := some false }
          { contract_id := 2, symbol := "BTC-28MAR25",
            min_order_size_contracts := some "0.001" }
          "" "" "" "yes" = some params
        ∧ params.time_in_force = "ASAP"
        ∧ params.time_in_force ∉ ["GTC", "IOC", "FOK", "PO"] := by
  refine ⟨_, rfl, rfl, by decide⟩

/-- C7 counterexample: a numeric contract hint that matches no available
contract (no contract has id 999, and "999" matches no symbol or index even
case-insensitively) does NOT make the extraction fail — `resolveContract`
returns it as an id with no symbol instead of an unresolved-contract error. -/
theorem resolveContract_numeric_unmatched_no_error :
    resolveContract [{ contract_id := 2, symbol := "BTC-28MAR25", index := "BTC" }] "999"
        = .ok { contractId := some (999 : Int), symbol := none }
      ∧ ∀ k ∈ [({ contract_id := 2, symbol := "BTC-28MAR25", index := "BTC" } : AIContract)],
          k.contract_id ≠ (999 : Int) ∧ toLowerStr k.symbol ≠ toLowerStr "999"
            ∧ toLowerStr k.index ≠ toLowerStr "999" := by
  exact ⟨rfl, by decide⟩

/-- C7 (amended): for a non-numeric contract hint (`isNaN(contract)`), failure
to match any contract by case-insensitive symbol or index comparison makes the
extraction fail with the unresolved-contract error; numeric hints are instead
kept as a bare id even when nothing matches. -/
theorem resolveContract_symbolic_unmatched_errors (contracts : List AIContract) (c : String)
    (hnan : (jsNumber c).isNone = true)
    (hnomatch : ∀ k ∈ contracts,
        toLowerStr k.symbol ≠ toLowerStr c ∧ toLowerStr k.index ≠ toLowerStr c) :
    resolveContract contracts c = .error ("Could not find a matching contract for: " ++ c) := by
  have hfind : contracts.find? (fun (k : AIContract) =>
      toLowerStr k.symbol == toLowerStr c || toLowerStr k.index == toLowerStr c) = none := by
    apply List.find?_eq_none.mpr
    intro k hk
    have hm := hnomatch k hk
    simp [hm.1, hm.2]
  unfold resolveContract
  simp only [hnan, if_true, hfind]

theorem resolveContract_symbolic_unmatched_errors_witness :
    resolveContract [{ contract_id := 2, symbol := "BTC-28MAR25", index := "BTC" }] "DOGE-PERP"
      = .error ("Could not find a matching contract for: " ++ "DOGE-PERP") :=
  resolveContract_symbolic_unmatched_errors _ "DOGE-PERP" (by decide) (by decide)

/-- C10: a signed request carries, under the same `X-API-KEY` header name that
unsigned requests use for the static key, the hex identity derived from the
private key (the last 32 bytes of the DER-exported public component), plus an
`X-Signature` header — and the configured static key appears in no header
value (it being distinct from the four values actually sent); an unsigned
request carries the static key and no signature header. -/
theorem apiRequest_credential_headers {Key : Type} (env : CryptoEnv Key) (cfg : Config Key)
    (key : Key) (method endpoint : String) (data : Option Json)
    (hkey : cfg.privateKey = some key) :
    (∀ r, apiRequest env cfg method endpoint data true = .ok r →
        r.headers = [("Content-Type", "application/json"), ("User-Agent", "CVEX-CLI/1.0"),
            ("X-API-KEY", getApiKey env key),
            ("X-Signature", signMessage env key method (cfg.apiUrl ++ endpoint)
              (jsonStringifyOpt data))]
          ∧ getApiKey env key
              = hexEncode ((env.derPublicKey key).drop ((env.derPublicKey key).length - 32))
          ∧ (cfg.apiKey ∉ ["application/json", "CVEX-CLI/1.0", getApiKey env key,
                signMessage env key method (cfg.apiUrl ++ endpoint) (jsonStringifyOpt data)] →
              ∀ p ∈ r.headers, p.2 ≠ cfg.apiKey))
      ∧ (∀ r, apiRequest env cfg method endpoint data false = .ok r →
          ("X-API-KEY", cfg.apiKey) ∈ r.headers ∧ ∀ p ∈ r.headers, p.1 ≠ "X-Signature") := by
  constructor
  · intro r hr
    simp only [apiRequest, hkey, if_true] at hr
    injection hr with hr
    subst hr
    refine ⟨rfl, rfl, ?_⟩
    intro hnot p hp
    simp only [List.cons_append, List.nil_append, List.mem_cons,
      List.not_mem_nil, or_false] at hp
    simp only [List.mem_cons, List.not_mem_nil, or_false, not_or] at hnot
    obtain ⟨n1, n2, n3, n4⟩ := hnot
    rcases hp with rfl | rfl | rfl | rfl
    · exact fun hh => n1 hh.symm
    · exact fun hh => n2 hh.symm
    · exact fun hh => n3 hh.symm
    · exact fun hh => n4 hh.symm
  · intro r hr
    simp only [apiRequest, Bool.false_eq_true, if_false] at hr
    injection hr with hr
    subst hr
    refine ⟨by simp, ?_⟩
    intro p hp
    simp only [List.cons_append, List.nil_append, List.mem_cons,
      List.not_mem_nil, or_false] at hp
    rcases hp with rfl | rfl | rfl <;> simp

theorem apiRequest_credential_headers_witness :
    ∃ r r' : HttpRequest,
      apiRequest cryptoEnv0 cfg0 "POST" "/v1/trading/order" none true = .ok r
        ∧ apiRequest cryptoEnv0 cfg0 "GET" "/v1/portfolio/overview" none false = .ok r'
        ∧ r.headers = [("Content-Type", "application/json"), ("User-Agent", "CVEX-CLI/1.0"),
            ("X-API-KEY", getApiKey cryptoEnv0 ()),
            ("X-Signature", signMessage cryptoEnv0 () "POST"
              (cfg0.apiUrl ++ "/v1/trading/order") (jsonStringifyOpt none))]
        ∧ (∀ p ∈ r.headers, p.2 ≠ cfg0.apiKey)
        ∧ ("X-API-KEY", cfg0.apiKey) ∈ r'.headers
        ∧ ∀ p ∈ r'.headers, p.1 ≠ "X-Signature" := by
  obtain ⟨h1, -⟩ := apiRequest_credential_headers cryptoEnv0 cfg0 () "POST"
    "/v1/trading/order" none rfl
  obtain ⟨-, h2⟩ := apiRequest_credential_headers cryptoEnv0 cfg0 () "GET"
    "/v1/portfolio/overview" none rfl
  obtain ⟨ha, -, hc⟩ := h1 _ rfl
  obtain ⟨hd, he⟩ := h2 _ rfl
  exact ⟨_, _, rfl, rfl, ha, hc (by decide), hd, he⟩

theorem opportunityBlocks_eq_nil {cs : List Char} (h : findHeader cs = none) :
    ∀ fuel, opportunityBlocks fuel cs = [] := by
  intro fuel
  cases fuel with
  | zero => rfl
  | succ fuel => simp [opportunityBlocks, h]

theorem fallbackTriples_eq_nil :
    ∀ (fuel count : Nat) (cs : List Char), (∀ n, tripleAt (cs.drop n) = none) →
      fallbackTriples fuel count cs = [] := by
  intro fuel
  induction fuel with
  | zero => intro count cs _; rfl
  | succ fuel ih =>
    intro count cs h
    cases cs with
    | nil => rfl
    | cons c rest =>
      have h0 : tripleAt (c :: rest) = none := h 0
      simp only [fallbackTriples, h0]
      exact ih count rest (fun n => h (n + 1))

/-- C8: the narrative extractor is total by construction (it is a Lean
function returning a list), and on any text with no `Opportunity N:` header
and no `SYMBOL-SYMBOL … buy/sell … NUMBER` triple at any position it returns
the empty list. -/
theorem parseOpportunities_total_empty (content : String)
    (h1 : findHeader content.data = none)
    (h2 : ∀ n ∈ List.range (content.data.length + 1),
        tripleAt (content.data.drop n) = none) :
    parseOpportunitiesFromAIResponse content = [] := by
  have h2' : ∀ n, tripleAt (content.data.drop n) = none := by
    intro n
    by_cases hn : n < content.data.length + 1
    · exact h2 n (List.mem_range.mpr hn)
    · rw [List.drop_eq_nil_of_le (by omega)]
      rfl
  simp only [parseOpportunitiesFromAIResponse, opportunityBlocks_eq_nil h1,
    List.map_nil, List.isEmpty_nil, if_true]
  exact fallbackTriples_eq_nil _ _ _ h2'

theorem parseOpportunities_total_empty_witness :
    parseOpportunitiesFromAIResponse "hello world.\nno trades today." = [] :=
  parseOpportunities_total_empty "hello world.\nno trades today." (by decide) (by decide)

/-- C9 (amended): on the given narrative the extractor yields exactly one
candidate with symbol `BTC-28MAR25` — but the action is the literal captured
text `"Sell"` (lowercased only later by consumers), and the price hints are
truncated at the comma by the `([^\n,]+)` value pattern: entry `"82"`, stop
`"83"`, take profit `"80"`. -/
theorem parseOpportunities_c9_actual :
    parseOpportunitiesFromAIResponse "Opportunity 1:\nContract: BTC-28MAR25\nAction: Sell\nEntry Price: 82,000\nStop Loss: 83,500\nTake Profit: 80,000\nPosition Size: small\nRisk Level: medium\nRationale: reversal signal."
      = [{ number := 1, symbol := some "BTC-28MAR25", action := some "Sell",
           entryPrice := "82", stopLoss := "83", takeProfit := "80",
           positionSize := "small", riskLevel := "medium",
           rationale := "reversal signal." }] := by decide

/-- C9 counterexample: the claimed candidate — action `sell` and entry-price
hint `82,000` — is not what the extractor produces on that exact input: the
single candidate carries action `"Sell"` and entry price `"82"`. -/
theorem parseOpportunities_c9_claim_false :
    ¬ ∃ o : Opportunity,
        parseOpportunitiesFromAIResponse "Opportunity 1:\nContract: BTC-28MAR25\nAction: Sell\nEntry Price: 82,000\nStop Loss: 83,500\nTake Profit: 80,000\nPosition Size: small\nRisk Level: medium\nRationale: reversal signal."
            = [o]
          ∧ o.symbol = some "BTC-28MAR25" ∧ o.action = some "sell"
          ∧ o.entryPrice = "82,000" := by
  rintro ⟨o, ho, -, -, hep⟩
  have hcomp : parseOpportunitiesFromAIResponse "Opportunity 1:\nContract: BTC-28MAR25\nAction: Sell\nEntry Price: 82,000\nStop Loss: 83,500\nTake Profit: 80,000\nPosition Size: small\nRisk Level: medium\nRationale: reversal signal."
      = [{ number := 1, symbol := some "BTC-28MAR25", action := some "Sell",
           entryPrice := "82", stopLoss := "83", takeProfit := "80",
           positionSize := "small", riskLevel := "medium",
           rationale := "reversal signal." }] := by decide
  rw [hcomp] at ho
  injection ho with h1 h2
  rw [← h1] at hep
  exact absurd hep (by decide)
